import Mathlib

/-!
Verification development for the EasyDocs gallery image resolution and export
pipeline (src/app/lib/hitomi.ts and src/app/components/hitomi-viewer.tsx).

The TypeScript code is shallowly embedded: numbers are modelled as `Nat`
(all quantities involved are nonnegative integers in every claim considered),
strings as `List Char`, JavaScript objects as structures, and fallible
operations as `Option`.
-/

namespace EasyDocs

/-! ### Tile planner (hitomi-viewer.tsx, `resolveTilePlan`)

`Math.ceil(a / b)` on nonnegative integers is `(a + b - 1) / b`.
-/

/-- `Math.ceil(a / b)` for natural numbers; `ceilDiv a 0 = 0`
(the source never divides by zero on the claims' domain). -/
def ceilDiv (a b : ℕ) : ℕ := (a + b - 1) / b

/-- A tile plan, as returned by `resolveTilePlan`: column count, row count,
tile width and tile height. -/
structure TilePlan where
  cols : ℕ
  rows : ℕ
  tileWidth : ℕ
  tileHeight : ℕ
deriving DecidableEq, Repr

/-- The `while (tileWidth * tileHeight > maxPixels)` loop of `resolveTilePlan`:
recompute both tile dimensions from the current counts, and increment the
count on the side whose tile dimension is currently larger.

The outer `if` guard totalises the model: for `maxPixels = 0` the source loop
would never terminate (the product never drops below 1 once both tiles are
clamped to a single pixel), and the source only ever calls it with the
positive `maxPixels` constants of the format table; claim C3 assumes
positivity accordingly. -/
def tileLoopGo (width height maxPixels cols rows : ℕ) : ℕ × ℕ :=
  if hmp : 0 < maxPixels then
    if hfit : ceilDiv width cols * ceilDiv height rows ≤ maxPixels then (cols, rows)
    else if hside : ceilDiv height rows ≤ ceilDiv width cols then
      tileLoopGo width height maxPixels (cols + 1) rows
    else tileLoopGo width height maxPixels cols (rows + 1)
  else (cols, rows)
termination_by (width - cols) + (height - rows)
decreasing_by
  · have h2 : 2 ≤ ceilDiv width cols := by
      rcases Nat.lt_or_ge (ceilDiv width cols) 2 with h | h
      · exfalso
        have : ceilDiv width cols * ceilDiv height rows ≤ 1 := by
          calc ceilDiv width cols * ceilDiv height rows
              ≤ 1 * 1 := Nat.mul_le_mul (by omega) (by omega)
            _ = 1 := by omega
        omega
      · exact h
    have hcw : cols < width := by
      unfold ceilDiv at h2
      rcases Nat.eq_zero_or_pos cols with hc | hc
      · subst hc; simp at h2
      · have := (Nat.le_div_iff_mul_le hc).mp h2
        omega
    omega
  · have h2 : 2 ≤ ceilDiv height rows := by
      rcases Nat.lt_or_ge (ceilDiv height rows) 2 with h | h
      · exfalso
        have : ceilDiv width cols * ceilDiv height rows ≤ 1 := by
          calc ceilDiv width cols * ceilDiv height rows
              ≤ 1 * 1 := Nat.mul_le_mul (by omega) (by omega)
            _ = 1 := by omega
        omega
      · exact h
    have hrh : rows < height := by
      unfold ceilDiv at h2
      rcases Nat.eq_zero_or_pos rows with hr | hr
      · subst hr; simp at h2
      · have := (Nat.le_div_iff_mul_le hr).mp h2
        omega
    omega

/-- `resolveTilePlan` (hitomi-viewer.tsx:193-216): start from
`cols = max(1, ceil(width / maxDimension))`, `rows = max(1, ceil(height / maxDimension))`,
shrink tiles until the pixel budget holds, and return the final grid. -/
def resolveTilePlan (width height maxDimension maxPixels : ℕ) : TilePlan :=
  let cols0 := max 1 (ceilDiv width maxDimension)
  let rows0 := max 1 (ceilDiv height maxDimension)
  let cr := tileLoopGo width height maxPixels cols0 rows0
  { cols := cr.1, rows := cr.2,
    tileWidth := ceilDiv width cr.1, tileHeight := ceilDiv height cr.2 }

/-- One check-and-step of the `resolveTilePlan` while loop: if the pixel budget
already holds the state is left unchanged, otherwise the larger-tile side's
count is incremented. -/
def tileStep (width height maxPixels : ℕ) (cr : ℕ × ℕ) : ℕ × ℕ :=
  let tileWidth := ceilDiv width cr.1
  let tileHeight := ceilDiv height cr.2
  if tileWidth * tileHeight ≤ maxPixels then cr
  else if tileHeight ≤ tileWidth then (cr.1 + 1, cr.2) else (cr.1, cr.2 + 1)

/-! ### Helper lemmas about `ceilDiv` -/

/-- `a ≤ b * ceilDiv a b` for a positive divisor: `b` columns of tile width
`ceil(a / b)` cover at least `a` pixels. -/
lemma le_mul_ceilDiv (a b : ℕ) (hb : 0 < b) : a ≤ b * ceilDiv a b := by
  unfold ceilDiv
  have hdm := Nat.div_add_mod (a + b - 1) b
  have hlt : (a + b - 1) % b < b := Nat.mod_lt _ hb
  omega

/-- Characterisation of `ceilDiv` against an upper bound. -/
lemma ceilDiv_le_iff (a b k : ℕ) (hb : 0 < b) : ceilDiv a b ≤ k ↔ a ≤ b * k := by
  unfold ceilDiv
  rw [Nat.div_le_iff_le_mul_add_pred hb]
  omega

/-- The initial column count `max 1 (ceil(width / maxDimension))` satisfies
`width ≤ cols₀ * maxDimension`. -/
lemma width_le_init_mul (width maxDimension : ℕ) (hd : 0 < maxDimension) :
    width ≤ max 1 (ceilDiv width maxDimension) * maxDimension := by
  rcases Nat.eq_zero_or_pos (ceilDiv width maxDimension) with h0 | hpos
  · have : width = 0 := by
      unfold ceilDiv at h0
      have := (Nat.div_eq_zero_iff hd).mp h0
      omega
    omega
  · have hmax : max 1 (ceilDiv width maxDimension) = ceilDiv width maxDimension := by omega
    rw [hmax, Nat.mul_comm]
    exact le_mul_ceilDiv width maxDimension hd

/-- The loop leaves the counts unchanged once the pixel budget holds. -/
lemma tileLoopGo_exit (width height maxPixels cols rows : ℕ)
    (hfit : ceilDiv width cols * ceilDiv height rows ≤ maxPixels) :
    tileLoopGo width height maxPixels cols rows = (cols, rows) := by
  rw [tileLoopGo]
  by_cases hmp : 0 < maxPixels
  · simp [hmp, hfit]
  · simp [hmp]

/-- The loop takes a column step when the budget fails and the tile width
dominates. -/
lemma tileLoopGo_stepCols (width height maxPixels cols rows : ℕ) (hmp : 0 < maxPixels)
    (hfit : ¬ ceilDiv width cols * ceilDiv height rows ≤ maxPixels)
    (hside : ceilDiv height rows ≤ ceilDiv width cols) :
    tileLoopGo width height maxPixels cols rows =
      tileLoopGo width height maxPixels (cols + 1) rows := by
  conv_lhs => rw [tileLoopGo]
  simp [hmp, hfit, hside]

/-- The loop takes a row step when the budget fails and the tile height
dominates strictly. -/
lemma tileLoopGo_stepRows (width height maxPixels cols rows : ℕ) (hmp : 0 < maxPixels)
    (hfit : ¬ ceilDiv width cols * ceilDiv height rows ≤ maxPixels)
    (hside : ¬ ceilDiv height rows ≤ ceilDiv width cols) :
    tileLoopGo width height maxPixels cols rows =
      tileLoopGo width height maxPixels cols (rows + 1) := by
  conv_lhs => rw [tileLoopGo]
  simp [hmp, hfit, hside]

/-- When the pixel budget fails and the tile width dominates, that tile width
is at least 2, so the column count is still below the image width. -/
lemma loop_cols_lt (width height maxPixels cols rows : ℕ) (hmp : 0 < maxPixels)
    (hfit : ¬ ceilDiv width cols * ceilDiv height rows ≤ maxPixels)
    (hside : ceilDiv height rows ≤ ceilDiv width cols) : cols < width := by
  have h2 : 2 ≤ ceilDiv width cols := by
    rcases Nat.lt_or_ge (ceilDiv width cols) 2 with h | h
    · have : ceilDiv width cols * ceilDiv height rows ≤ 1 := by
        calc ceilDiv width cols * ceilDiv height rows
            ≤ 1 * 1 := Nat.mul_le_mul (by omega) (by omega)
          _ = 1 := by omega
      omega
    · exact h
  unfold ceilDiv at h2
  rcases Nat.eq_zero_or_pos cols with hc | hc
  · subst hc; simp at h2
  · have := (Nat.le_div_iff_mul_le hc).mp h2
    omega

/-- When the pixel budget fails and the tile height strictly dominates, the
row count is still below the image height. -/
lemma loop_rows_lt (width height maxPixels cols rows : ℕ) (hmp : 0 < maxPixels)
    (hfit : ¬ ceilDiv width cols * ceilDiv height rows ≤ maxPixels)
    (hside : ¬ ceilDiv height rows ≤ ceilDiv width cols) : rows < height := by
  have h2 : 2 ≤ ceilDiv height rows := by
    rcases Nat.lt_or_ge (ceilDiv height rows) 2 with h | h
    · have : ceilDiv width cols * ceilDiv height rows ≤ 1 := by
        calc ceilDiv width cols * ceilDiv height rows
            ≤ 1 * 1 := Nat.mul_le_mul (by omega) (by omega)
          _ = 1 := by omega
      omega
    · exact h
  unfold ceilDiv at h2
  rcases Nat.eq_zero_or_pos rows with hr | hr
  · subst hr; simp at h2
  · have := (Nat.le_div_iff_mul_le hr).mp h2
    omega

/-- Full specification of the `resolveTilePlan` while loop: the final counts
are reached from the initial ones by finitely many `tileStep`s, only grow,
and satisfy the pixel budget on exit. -/
lemma tileLoopGo_spec (width height maxPixels : ℕ) (hmp : 0 < maxPixels) :
    ∀ k cols rows, (width - cols) + (height - rows) ≤ k →
      (∃ n : ℕ, (tileStep width height maxPixels)^[n] (cols, rows) =
          tileLoopGo width height maxPixels cols rows) ∧
      cols ≤ (tileLoopGo width height maxPixels cols rows).1 ∧
      rows ≤ (tileLoopGo width height maxPixels cols rows).2 ∧
      ceilDiv width (tileLoopGo width height maxPixels cols rows).1 *
        ceilDiv height (tileLoopGo width height maxPixels cols rows).2 ≤ maxPixels := by
  intro k
  induction k with
  | zero =>
    intro cols rows hk
    by_cases hfit : ceilDiv width cols * ceilDiv height rows ≤ maxPixels
    · rw [tileLoopGo_exit width height maxPixels cols rows hfit]
      exact ⟨⟨0, by simp [tileLoopGo_exit width height maxPixels cols rows hfit]⟩,
        le_refl _, le_refl _, hfit⟩
    · exfalso
      by_cases hside : ceilDiv height rows ≤ ceilDiv width cols
      · have := loop_cols_lt width height maxPixels cols rows hmp hfit hside
        omega
      · have := loop_rows_lt width height maxPixels cols rows hmp hfit hside
        omega
  | succ k ih =>
    intro cols rows hk
    by_cases hfit : ceilDiv width cols * ceilDiv height rows ≤ maxPixels
    · rw [tileLoopGo_exit width height maxPixels cols rows hfit]
      exact ⟨⟨0, by simp [tileLoopGo_exit width height maxPixels cols rows hfit]⟩,
        le_refl _, le_refl _, hfit⟩
    · have hstep : tileStep width height maxPixels (cols, rows) =
          if ceilDiv height rows ≤ ceilDiv width cols
          then (cols + 1, rows) else (cols, rows + 1) := by
        unfold tileStep
        simp [hfit]
      by_cases hside : ceilDiv height rows ≤ ceilDiv width cols
      · have hcw := loop_cols_lt width height maxPixels cols rows hmp hfit hside
        have hrec := tileLoopGo_stepCols width height maxPixels cols rows hmp hfit hside
        obtain ⟨⟨n, hn⟩, hc, hr, hexit⟩ := ih (cols + 1) rows (by omega)
        refine ⟨⟨n + 1, ?_⟩, ?_, ?_, ?_⟩
        · rw [Function.iterate_succ_apply, hstep, if_pos hside, hn, hrec]
        · rw [hrec]; omega
        · rw [hrec]; omega
        · rw [hrec]; exact hexit
      · have hrh := loop_rows_lt width height maxPixels cols rows hmp hfit hside
        have hrec := tileLoopGo_stepRows width height maxPixels cols rows hmp hfit hside
        obtain ⟨⟨n, hn⟩, hc, hr, hexit⟩ := ih cols (rows + 1) (by omega)
        refine ⟨⟨n + 1, ?_⟩, ?_, ?_, ?_⟩
        · rw [Function.iterate_succ_apply, hstep, if_neg hside, hn, hrec]
        · rw [hrec]; omega
        · rw [hrec]; omega
        · rw [hrec]; exact hexit

/-- C2. Tile plan invariant: for every `(width, height, maxDimension, maxPixels)`
with `maxDimension > 0` and `maxPixels > 0`, the plan returned by
`resolveTilePlan` satisfies `tileWidth ≤ maxDimension`,
`tileHeight ≤ maxDimension`, `tileWidth * tileHeight ≤ maxPixels`,
`cols * tileWidth ≥ width`, and `rows * tileHeight ≥ height`. -/
theorem tile_plan_invariant (width height maxDimension maxPixels : ℕ)
    (hd : 0 < maxDimension) (hmp : 0 < maxPixels) :
    (resolveTilePlan width height maxDimension maxPixels).tileWidth ≤ maxDimension ∧
    (resolveTilePlan width height maxDimension maxPixels).tileHeight ≤ maxDimension ∧
    (resolveTilePlan width height maxDimension maxPixels).tileWidth *
      (resolveTilePlan width height maxDimension maxPixels).tileHeight ≤ maxPixels ∧
    width ≤ (resolveTilePlan width height maxDimension maxPixels).cols *
      (resolveTilePlan width height maxDimension maxPixels).tileWidth ∧
    height ≤ (resolveTilePlan width height maxDimension maxPixels).rows *
      (resolveTilePlan width height maxDimension maxPixels).tileHeight := by
  have hspec := tileLoopGo_spec width height maxPixels hmp
    ((width - max 1 (ceilDiv width maxDimension)) + (height - max 1 (ceilDiv height maxDimension)))
    (max 1 (ceilDiv width maxDimension)) (max 1 (ceilDiv height maxDimension)) (le_refl _)
  obtain ⟨-, hc, hr, hexit⟩ := hspec
  set cr := tileLoopGo width height maxPixels
    (max 1 (ceilDiv width maxDimension)) (max 1 (ceilDiv height maxDimension)) with hcr
  have hplan : resolveTilePlan width height maxDimension maxPixels =
      { cols := cr.1, rows := cr.2,
        tileWidth := ceilDiv width cr.1, tileHeight := ceilDiv height cr.2 } := by
    rw [resolveTilePlan]
  have hc1 : 0 < cr.1 := lt_of_lt_of_le (by omega) hc
  have hr1 : 0 < cr.2 := lt_of_lt_of_le (by omega) hr
  rw [hplan]
  refine ⟨?_, ?_, hexit, ?_, ?_⟩
  · rw [ceilDiv_le_iff width cr.1 maxDimension hc1]
    calc width ≤ max 1 (ceilDiv width maxDimension) * maxDimension :=
          width_le_init_mul width maxDimension hd
      _ ≤ cr.1 * maxDimension := Nat.mul_le_mul_right maxDimension hc
  · rw [ceilDiv_le_iff height cr.2 maxDimension hr1]
    calc height ≤ max 1 (ceilDiv height maxDimension) * maxDimension :=
          width_le_init_mul height maxDimension hd
      _ ≤ cr.2 * maxDimension := Nat.mul_le_mul_right maxDimension hr
  · exact le_mul_ceilDiv width cr.1 hc1
  · exact le_mul_ceilDiv height cr.2 hr1

/-- Witness for C2 at a concrete input. -/
theorem tile_plan_invariant_witness :
    (resolveTilePlan 100 50 16 40).tileWidth ≤ 16 ∧
    (resolveTilePlan 100 50 16 40).tileHeight ≤ 16 ∧
    (resolveTilePlan 100 50 16 40).tileWidth * (resolveTilePlan 100 50 16 40).tileHeight ≤ 40 ∧
    100 ≤ (resolveTilePlan 100 50 16 40).cols * (resolveTilePlan 100 50 16 40).tileWidth ∧
    50 ≤ (resolveTilePlan 100 50 16 40).rows * (resolveTilePlan 100 50 16 40).tileHeight :=
  tile_plan_invariant 100 50 16 40 (by decide) (by decide)

/-- C3. Tile planner termination: for positive `width`, `height`,
`maxDimension` and `maxPixels`, the `while (tileWidth * tileHeight > maxPixels)`
loop of `resolveTilePlan` terminates: starting from the initial
`cols/rows` counts, finitely many iterations of the loop body (`tileStep`)
reach the returned state, which satisfies the loop's exit condition (so
`resolveTilePlan` is a total function on positive inputs, its counts being
exactly the iterated loop's fixpoint). -/
theorem tile_planner_termination (width height maxDimension maxPixels : ℕ)
    (hw : 0 < width) (hh : 0 < height) (hd : 0 < maxDimension) (hmp : 0 < maxPixels) :
    ∃ n : ℕ,
      (tileStep width height maxPixels)^[n]
          (max 1 (ceilDiv width maxDimension), max 1 (ceilDiv height maxDimension)) =
        ((resolveTilePlan width height maxDimension maxPixels).cols,
         (resolveTilePlan width height maxDimension maxPixels).rows) ∧
      (resolveTilePlan width height maxDimension maxPixels).tileWidth *
        (resolveTilePlan width height maxDimension maxPixels).tileHeight ≤ maxPixels := by
  have hspec := tileLoopGo_spec width height maxPixels hmp
    ((width - max 1 (ceilDiv width maxDimension)) + (height - max 1 (ceilDiv height maxDimension)))
    (max 1 (ceilDiv width maxDimension)) (max 1 (ceilDiv height maxDimension)) (le_refl _)
  obtain ⟨⟨n, hn⟩, -, -, hexit⟩ := hspec
  refine ⟨n, ?_, ?_⟩
  · rw [hn, resolveTilePlan]
  · rw [resolveTilePlan]
    exact hexit

/-- Witness for C3 at a concrete input. -/
theorem tile_planner_termination_witness :
    ∃ n : ℕ,
      (tileStep 100 50 5)^[n] (max 1 (ceilDiv 100 16), max 1 (ceilDiv 50 16)) =
        ((resolveTilePlan 100 50 16 5).cols, (resolveTilePlan 100 50 16 5).rows) ∧
      (resolveTilePlan 100 50 16 5).tileWidth *
        (resolveTilePlan 100 50 16 5).tileHeight ≤ 5 :=
  tile_planner_termination 100 50 16 5 (by decide) (by decide) (by decide) (by decide)

/-! ### Composite stitcher (hitomi-viewer.tsx, `handleDownloadImages`, combine branch)

The combine branch is modelled on the (integer) scaled heights of the images:
the state carries the current chunk index, the current canvas height, the
global draw cursor `yCursor`, and the heights of the chunks flushed so far.
`chunkYStart` of the source is always `chunkIndex * chunkHeight`, so it is
recomputed rather than stored. The draw loop of the source is a `while`
loop; it is embedded with an explicit fuel counter, and
`drawImageSlices_spec` below proves the provided fuel is never exhausted. -/

/-- `openChunk` (hitomi-viewer.tsx:562-578) height computation:
`max(1, ceil(min(chunkHeight, max(0, totalHeight - index * chunkHeight))))`. -/
def openChunkHeight (chunkHeight totalHeight index : ℕ) : ℕ :=
  max 1 (min chunkHeight (totalHeight - index * chunkHeight))

/-- State of the streaming combine loop. -/
structure ChunkState where
  chunkIndex : ℕ
  canvasHeight : ℕ
  yCursor : ℕ
  flushed : List ℕ
deriving DecidableEq, Repr

/-- The inner `while (remainingHeight > 0)` loop (hitomi-viewer.tsx:620-651)
drawing one image of remaining height `r`. When the cursor has reached the
bottom of the current chunk, the chunk is flushed and the next one opened;
note the source computes `available` from the chunk bottom captured *before*
the flush, so the iteration that crosses a boundary draws a zero-height
slice and the actual drawing happens on the next iteration — the embedding
reflects this by recursing with `r` unchanged after a flush. -/
def drawImageSlices (chunkHeight totalHeight : ℕ) :
    ℕ → ℕ → ChunkState → Option ChunkState
  | 0, _, _ => none
  | fuel + 1, r, s =>
    if r = 0 then some s
    else
      if s.chunkIndex * chunkHeight + s.canvasHeight ≤ s.yCursor then
        drawImageSlices chunkHeight totalHeight fuel r
          { chunkIndex := s.chunkIndex + 1
            canvasHeight := openChunkHeight chunkHeight totalHeight (s.chunkIndex + 1)
            yCursor := s.yCursor
            flushed := s.flushed ++ [s.canvasHeight] }
      else
        let available := s.chunkIndex * chunkHeight + s.canvasHeight - s.yCursor
        let slice := min r available
        drawImageSlices chunkHeight totalHeight fuel (r - slice)
          { s with yCursor := s.yCursor + slice }

/-- The outer `for` loop over the images (hitomi-viewer.tsx:601-658). Each
image carries its (scaled) height and a flag telling whether it is actually
drawn at draw time: images with zero height are skipped first
(`if (!dims.height) continue`, line 603), and an image whose decoded handle
was not kept from the dimension pass is re-fetched at draw time and skipped
when that fetch fails (`if (!blob) continue`, hitomi-viewer.tsx:609-614) —
its height nevertheless stays counted in `totalHeight`. The flag is `true`
for preloaded/decoded images and for draw-time fetches that succeed, `false`
for a declared-dimension image whose draw-time retrieval fails (or whose
draw width is zero, line 603-606). -/
def drawAllImages (chunkHeight totalHeight : ℕ) :
    List (ℕ × Bool) → ChunkState → Option ChunkState
  | [], s => some s
  | (h, drawn) :: rest, s =>
    if h = 0 then drawAllImages chunkHeight totalHeight rest s
    else if drawn then
      match drawImageSlices chunkHeight totalHeight (2 * h + 2) h s with
      | none => none
      | some s1 => drawAllImages chunkHeight totalHeight rest s1
    else drawAllImages chunkHeight totalHeight rest s

/-- The heights of all chunk canvases produced by the combine branch for
images of (scaled) heights `(images.map Prod.fst)` — each paired with its
draw-time retrieval outcome — and chunk height `chunkHeight`: `totalHeight`
sums every height, drawn or not (hitomi-viewer.tsx:545-548), the first chunk
is opened, every image is streamed in, and the final canvas is flushed
(hitomi-viewer.tsx:594-660). A zero total height returns early and produces
no chunks. -/
def combineChunkHeights (images : List (ℕ × Bool)) (chunkHeight : ℕ) : Option (List ℕ) :=
  let totalHeight := (images.map Prod.fst).sum
  if totalHeight = 0 then some []
  else
    let s0 : ChunkState := ⟨0, openChunkHeight chunkHeight totalHeight 0, 0, []⟩
    match drawAllImages chunkHeight totalHeight images s0 with
    | none => none
    | some s => some (s.flushed ++ [s.canvasHeight])

/-- `chunkHeight = max(1, min(maxDimension, floor(maxPixels / scaledWidth)))`
(hitomi-viewer.tsx:540-544). -/
def chunkHeightFor (maxDimension maxPixels scaledWidth : ℕ) : ℕ :=
  max 1 (min maxDimension (maxPixels / scaledWidth))

/-- Invariant of the streaming combine loop: the current canvas has the
height `openChunk` gave it, the cursor lies within the current chunk, the
flushed chunks were all full (their heights sum to `chunkIndex * ch`), and
the current chunk starts strictly below the total height. -/
def ChunkInv (ch total : ℕ) (s : ChunkState) : Prop :=
  s.canvasHeight = openChunkHeight ch total s.chunkIndex ∧
  s.chunkIndex * ch ≤ s.yCursor ∧
  s.yCursor ≤ s.chunkIndex * ch + s.canvasHeight ∧
  s.flushed.sum = s.chunkIndex * ch ∧
  s.chunkIndex * ch < total

lemma drawImageSlices_spec (ch total : ℕ) (hch : 0 < ch) :
    ∀ fuel r s, ChunkInv ch total s → s.yCursor + r ≤ total →
      2 * r + 1 + (if s.chunkIndex * ch + s.canvasHeight ≤ s.yCursor then 1 else 0) ≤ fuel →
      ∃ s1, drawImageSlices ch total fuel r s = some s1 ∧ ChunkInv ch total s1 ∧
        s1.yCursor = s.yCursor + r := by
  intro fuel
  induction fuel with
  | zero =>
    intro r s _ _ hfuel
    exfalso
    split at hfuel <;> omega
  | succ fuel ih =>
    rintro r ⟨idx, canH, yC, fl⟩ hinv hr hfuel
    obtain ⟨hA, hBl, hBu, hC, hE⟩ := hinv
    dsimp only at hA hBl hBu hC hE hr hfuel ⊢
    by_cases hr0 : r = 0
    · subst hr0
      refine ⟨⟨idx, canH, yC, fl⟩, ?_, ⟨hA, hBl, hBu, hC, hE⟩, by dsimp only; omega⟩
      simp [drawImageSlices]
    · by_cases hbd : idx * ch + canH ≤ yC
      · -- the cursor is at the chunk bottom: flush and open the next chunk
        rw [if_pos hbd] at hfuel
        have hyc : yC = idx * ch + canH := le_antisymm hBu hbd
        have hcanH : canH = ch := by
          have htotal : idx * ch + canH + 1 ≤ total := by omega
          rw [openChunkHeight] at hA
          omega
        have hsuccmul : (idx + 1) * ch = idx * ch + ch := Nat.succ_mul _ _
        have hcan1 : 1 ≤ openChunkHeight ch total (idx + 1) := le_max_left 1 _
        have hinv' : ChunkInv ch total
            ⟨idx + 1, openChunkHeight ch total (idx + 1), yC, fl ++ [canH]⟩ := by
          refine ⟨rfl, ?_, ?_, ?_, ?_⟩ <;>
            simp only [List.sum_append, List.sum_cons, List.sum_nil] <;> omega
        obtain ⟨s1, heq, hinv1, hy1⟩ := ih r
          ⟨idx + 1, openChunkHeight ch total (idx + 1), yC, fl ++ [canH]⟩
          hinv' (by dsimp only; omega)
          (by dsimp only; rw [if_neg (by omega)]; omega)
        refine ⟨s1, ?_, hinv1, by dsimp only at hy1; omega⟩
        rw [drawImageSlices]
        dsimp only
        rw [if_neg hr0, if_pos hbd]
        exact heq
      · -- draw a slice into the current chunk
        rw [if_neg hbd] at hfuel
        have hav1 : 1 ≤ idx * ch + canH - yC := by omega
        have hsl1 : 1 ≤ min r (idx * ch + canH - yC) := by omega
        have hinv' : ChunkInv ch total
            ⟨idx, canH, yC + min r (idx * ch + canH - yC), fl⟩ := by
          refine ⟨hA, ?_, ?_, hC, hE⟩ <;> dsimp only <;> omega
        obtain ⟨s1, heq, hinv1, hy1⟩ := ih (r - min r (idx * ch + canH - yC))
          ⟨idx, canH, yC + min r (idx * ch + canH - yC), fl⟩ hinv'
          (by dsimp only; omega)
          (by dsimp only; split <;> omega)
        refine ⟨s1, ?_, hinv1, by dsimp only at hy1; omega⟩
        rw [drawImageSlices]
        dsimp only
        rw [if_neg hr0, if_neg hbd]
        exact heq

lemma drawAllImages_spec (ch total : ℕ) (hch : 0 < ch) :
    ∀ (images : List (ℕ × Bool)) (s : ChunkState),
      (∀ p ∈ images, p.1 = 0 ∨ p.2 = true) →
      ChunkInv ch total s →
      s.yCursor + (images.map Prod.fst).sum ≤ total →
      ∃ s1, drawAllImages ch total images s = some s1 ∧ ChunkInv ch total s1 ∧
        s1.yCursor = s.yCursor + (images.map Prod.fst).sum := by
  intro images
  induction images with
  | nil =>
    intro s _ hinv hr
    exact ⟨s, rfl, hinv, by simp⟩
  | cons p rest ih =>
    rcases p with ⟨h, drawn⟩
    intro s hok hinv hr
    have hokrest : ∀ q ∈ rest, q.1 = 0 ∨ q.2 = true :=
      fun q hq => hok q (List.mem_cons_of_mem _ hq)
    simp only [List.map_cons, List.sum_cons] at hr ⊢
    by_cases h0 : h = 0
    · subst h0
      obtain ⟨s1, heq, hinv1, hy1⟩ := ih s hokrest hinv (by omega)
      refine ⟨s1, ?_, hinv1, by omega⟩
      rw [drawAllImages.eq_def]
      dsimp only
      rw [if_pos rfl]
      exact heq
    · have hdrawn : drawn = true := by
        rcases hok (h, drawn) (List.mem_cons_self _ _) with h' | h'
        · exact absurd h' h0
        · exact h'
      subst hdrawn
      obtain ⟨smid, heqmid, hinvm, hym⟩ :=
        drawImageSlices_spec ch total hch (2 * h + 2) h s hinv (by omega)
          (by split <;> omega)
      obtain ⟨s1, heq, hinv1, hy1⟩ := ih smid hokrest hinvm (by omega)
      refine ⟨s1, ?_, hinv1, by omega⟩
      rw [drawAllImages.eq_def]
      dsimp only
      rw [if_neg h0, if_pos rfl, heqmid]
      exact heq

/-- Height conservation of the combine loop, for any positive chunk height,
when every image of positive scaled height is actually drawn (no draw-time
retrieval failure). -/
lemma combineChunkHeights_conserves (images : List (ℕ × Bool)) (ch : ℕ) (hch : 0 < ch)
    (hok : ∀ p ∈ images, p.1 = 0 ∨ p.2 = true)
    (hsum : 0 < (images.map Prod.fst).sum) :
    ∃ chunks, combineChunkHeights images ch = some chunks ∧
      chunks.sum = (images.map Prod.fst).sum := by
  have hne : (images.map Prod.fst).sum ≠ 0 := by omega
  have hinv0 : ChunkInv ch (images.map Prod.fst).sum
      ⟨0, openChunkHeight ch (images.map Prod.fst).sum 0, 0, []⟩ := by
    refine ⟨rfl, ?_, ?_, ?_, ?_⟩ <;> dsimp only [List.sum_nil] <;> omega
  obtain ⟨s1, heq, hinv1, hy1⟩ :=
    drawAllImages_spec ch (images.map Prod.fst).sum hch images
      ⟨0, openChunkHeight ch (images.map Prod.fst).sum 0, 0, []⟩ hok hinv0
      (by dsimp only; omega)
  refine ⟨s1.flushed ++ [s1.canvasHeight], ?_, ?_⟩
  · simp only [combineChunkHeights, heq]
    rw [if_neg hne]
  · obtain ⟨hA, hBl, hBu, hC, hE⟩ := hinv1
    rw [List.sum_append, List.sum_cons, List.sum_nil, hC]
    rw [openChunkHeight] at hA
    dsimp only at hy1
    omega

/-- C1 as stated is false on the code: an image whose declared dimensions
spared it the dimension-pass decode is re-fetched at draw time and skipped
when that fetch fails (hitomi-viewer.tsx:609-614), while its scaled height
stays counted in `totalHeight` — so a combine run can drop pixels.
Counterexample with the png-config chunk height
`min(16384, floor(268435456 / 16384)) = 16384`: scaled heights
`[10000, 16384, 10000]` with the middle image's draw-time fetch failing
produce the chunks `[16384, 16384]`, whose sum 32768 is not
`10000 + 16384 + 10000 = 36384`. -/
theorem combine_height_conservation_counterexample :
    combineChunkHeights [(10000, true), (16384, false), (10000, true)]
        (chunkHeightFor 16384 268435456 16384) = some [16384, 16384] ∧
    (([(10000, true), (16384, false), (10000, true)] : List (ℕ × Bool)).map Prod.fst).sum
      = 36384 ∧
    ((16384 : ℕ) + 16384 ≠ 36384) := by
  refine ⟨by decide, by decide, by decide⟩

/-- C1, amended. Composite height conservation: in combine mode, with the
chunk height computed as `min(maxDimension, floor(maxPixels / scaledWidth))`
(clamped to at least 1 as in the source), for every sequence of images with
scaled heights `h1..hn` (of positive total) **in which every image of
positive height is successfully retrieved at draw time**, the produced chunk
canvases exist and the sum of their heights equals `h1 + ... + hn` exactly;
in particular three images of scaled height 4000 with `chunkHeight = 6000`
produce exactly the two chunks `[6000, 6000]`. When a draw-time fetch fails,
the skipped image's height stays in `totalHeight` and the produced chunks sum
to less (see the counterexample above). -/
theorem combine_height_conservation :
    (∀ (maxDimension maxPixels scaledWidth : ℕ) (images : List (ℕ × Bool)),
        (∀ p ∈ images, p.1 = 0 ∨ p.2 = true) →
        0 < (images.map Prod.fst).sum →
        ∃ chunks,
          combineChunkHeights images (chunkHeightFor maxDimension maxPixels scaledWidth) =
            some chunks ∧ chunks.sum = (images.map Prod.fst).sum) ∧
    combineChunkHeights [(4000, true), (4000, true), (4000, true)] 6000 =
      some [6000, 6000] := by
  constructor
  · intro maxDimension maxPixels scaledWidth images hok hsum
    have hch : 0 < chunkHeightFor maxDimension maxPixels scaledWidth := by
      rw [chunkHeightFor]; omega
    exact combineChunkHeights_conserves images _ hch hok hsum
  · decide

/-- Witness for the amended C1 at a concrete input. -/
theorem combine_height_conservation_witness :
    (∀ p ∈ ([(5, true)] : List (ℕ × Bool)), p.1 = 0 ∨ p.2 = true) ∧
    0 < (([(5, true)] : List (ℕ × Bool)).map Prod.fst).sum ∧
    ∃ chunks, combineChunkHeights [(5, true)] (chunkHeightFor 10 100 2) = some chunks ∧
      chunks.sum = (([(5, true)] : List (ℕ × Bool)).map Prod.fst).sum :=
  ⟨by decide, by decide,
    combine_height_conservation.1 10 100 2 [(5, true)] (by decide) (by decide)⟩

/-! ### Export format configuration and the per-image tile split
(hitomi-viewer.tsx:44-87 and 669-736) -/

/-- The requested raster export format. -/
inductive ImageExportFormat
  | png
  | jpg
  | webp
  | avif
deriving DecidableEq, Repr

/-- Per-format export limits (hitomi-viewer.tsx:59-87). The lossy `quality`
field (a float) is not modelled; no claim depends on it. -/
structure ImageExportConfig where
  mime : List Char
  extension : List Char
  maxDimension : ℕ
  maxPixels : ℕ
deriving DecidableEq, Repr

/-- `IMAGE_EXPORT_CONFIG` table (hitomi-viewer.tsx:59-87). -/
def IMAGE_EXPORT_CONFIG : ImageExportFormat → ImageExportConfig
  | .png => { mime := ("image/png" ).data, extension := ("png" ).data,
              maxDimension := 16384, maxPixels := 268435456 }
  | .jpg => { mime := ("image/jpeg" ).data, extension := ("jpg" ).data,
              maxDimension := 16384, maxPixels := 268435456 }
  | .webp => { mime := ("image/webp" ).data, extension := ("webp" ).data,
               maxDimension := 16383, maxPixels := 268435456 }
  | .avif => { mime := ("image/avif" ).data, extension := ("avif" ).data,
               maxDimension := 16384, maxPixels := 268435456 }

/-- The plan used by the per-image loop (hitomi-viewer.tsx:678-685):
`resolveTilePlan` when split mode is on and the image exceeds a limit,
otherwise the trivial single-tile plan. -/
def planFor (width height : ℕ) (cfg : ImageExportConfig) (split : Bool) : TilePlan :=
  let needsSplit := split &&
    (decide (cfg.maxDimension < width) || decide (cfg.maxDimension < height) ||
      decide (cfg.maxPixels < width * height))
  if needsSplit then resolveTilePlan width height cfg.maxDimension cfg.maxPixels
  else { cols := 1, rows := 1, tileWidth := width, tileHeight := height }

/-- Membership of the pixel `(x, y)` in the source crop rectangle of tile
`(c, r)`: origin `(c * tileWidth, r * tileHeight)`, size
`(min tileWidth (width - c * tileWidth), min tileHeight (height - r * tileHeight))`
(hitomi-viewer.tsx:687-716). -/
def inTile (width height : ℕ) (plan : TilePlan) (c r x y : ℕ) : Prop :=
  c * plan.tileWidth ≤ x ∧
  x < c * plan.tileWidth + min plan.tileWidth (width - c * plan.tileWidth) ∧
  r * plan.tileHeight ≤ y ∧
  y < r * plan.tileHeight + min plan.tileHeight (height - r * plan.tileHeight)

/-- `ceilDiv` of positives is positive. -/
lemma ceilDiv_pos (a b : ℕ) (ha : 0 < a) (hb : 0 < b) : 0 < ceilDiv a b := by
  unfold ceilDiv
  rw [Nat.lt_iff_add_one_le, Nat.le_div_iff_mul_le hb]
  omega

/-- The plan chosen by the per-image loop has positive tiles that cover the
image in both axes. -/
lemma planFor_bounds (width height : ℕ) (cfg : ImageExportConfig) (split : Bool)
    (hw : 0 < width) (hh : 0 < height) (hd : 0 < cfg.maxDimension)
    (hp : 0 < cfg.maxPixels) :
    0 < (planFor width height cfg split).tileWidth ∧
    0 < (planFor width height cfg split).tileHeight ∧
    width ≤ (planFor width height cfg split).cols * (planFor width height cfg split).tileWidth ∧
    height ≤ (planFor width height cfg split).rows * (planFor width height cfg split).tileHeight := by
  rw [planFor]
  split
  · -- the split path goes through resolveTilePlan
    have hspec := tileLoopGo_spec width height cfg.maxPixels hp
      ((width - max 1 (ceilDiv width cfg.maxDimension)) +
        (height - max 1 (ceilDiv height cfg.maxDimension)))
      (max 1 (ceilDiv width cfg.maxDimension)) (max 1 (ceilDiv height cfg.maxDimension))
      (le_refl _)
    obtain ⟨-, hc, hr, -⟩ := hspec
    set cr := tileLoopGo width height cfg.maxPixels
      (max 1 (ceilDiv width cfg.maxDimension)) (max 1 (ceilDiv height cfg.maxDimension)) with hcr
    have hplan : resolveTilePlan width height cfg.maxDimension cfg.maxPixels =
        { cols := cr.1, rows := cr.2,
          tileWidth := ceilDiv width cr.1, tileHeight := ceilDiv height cr.2 } := by
      rw [resolveTilePlan]
    have hc1 : 0 < cr.1 := lt_of_lt_of_le (by omega) hc
    have hr1 : 0 < cr.2 := lt_of_lt_of_le (by omega) hr
    rw [hplan]
    exact ⟨ceilDiv_pos width cr.1 hw hc1, ceilDiv_pos height cr.2 hh hr1,
      le_mul_ceilDiv width cr.1 hc1, le_mul_ceilDiv height cr.2 hr1⟩
  · exact ⟨hw, hh, by dsimp only; omega, by dsimp only; omega⟩

/-- One-dimensional coverage: with positive tile dimension `t` and `n` tiles
covering `len`, every coordinate `x < len` lies in the (clipped) tile `x / t`. -/
lemma tile_cover_forward (t n len x : ℕ) (ht : 0 < t) (hcov : len ≤ n * t)
    (hx : x < len) :
    x / t < n ∧ x / t * t ≤ x ∧ x < x / t * t + min t (len - x / t * t) := by
  have hdm := Nat.div_add_mod x t
  rw [Nat.mul_comm] at hdm
  have hm := Nat.mod_lt x ht
  refine ⟨?_, Nat.div_mul_le_self x t, ?_⟩
  · rw [Nat.div_lt_iff_lt_mul ht]
    omega
  · omega

/-- One-dimensional uniqueness: a coordinate lies in at most one (clipped)
tile. -/
lemma tile_cover_unique (t c x L : ℕ) (hlo : c * t ≤ x)
    (hhi : x < c * t + min t L) : c = x / t := by
  have ht : 0 < t := by omega
  have := Nat.div_eq_of_lt_le hlo (by rw [Nat.succ_mul]; omega)
  omega

/-- One-dimensional bound: a coordinate inside a clipped tile is inside the
image. -/
lemma tile_cover_inside (t c x len : ℕ) (hlo : c * t ≤ x)
    (hhi : x < c * t + min t (len - c * t)) : x < len := by
  omega

/-- C10. Tile partition exactness: for every loaded image of positive width
and height and the tile plan the split loop uses for it, the source crop
rectangles taken by the loop — origin `(col * tileWidth, row * tileHeight)`,
size `(min tileWidth (width - col*tileWidth), min tileHeight (height - row*tileHeight))`
for `0 ≤ row < rows`, `0 ≤ col < cols` — partition the image exactly: a pixel
lies inside the image iff it belongs to exactly one crop rectangle (edge tiles
are clipped to the image bounds, no pixel is dropped or duplicated). -/
theorem tile_partition_exact (width height : ℕ) (cfg : ImageExportConfig)
    (split : Bool) (hw : 0 < width) (hh : 0 < height)
    (hd : 0 < cfg.maxDimension) (hp : 0 < cfg.maxPixels) :
    ∀ x y : ℕ,
      (x < width ∧ y < height) ↔
      ∃! cr : ℕ × ℕ,
        cr.1 < (planFor width height cfg split).cols ∧
        cr.2 < (planFor width height cfg split).rows ∧
        inTile width height (planFor width height cfg split) cr.1 cr.2 x y := by
  obtain ⟨htw, hth, hcw, hch⟩ := planFor_bounds width height cfg split hw hh hd hp
  set plan := planFor width height cfg split with hplan
  intro x y
  constructor
  · rintro ⟨hx, hy⟩
    obtain ⟨hcn, hclo, hchi⟩ :=
      tile_cover_forward plan.tileWidth plan.cols width x htw hcw hx
    obtain ⟨hrn, hrlo, hrhi⟩ :=
      tile_cover_forward plan.tileHeight plan.rows height y hth hch hy
    refine ⟨(x / plan.tileWidth, y / plan.tileHeight), ⟨hcn, hrn, ?_⟩, ?_⟩
    · exact ⟨hclo, hchi, hrlo, hrhi⟩
    · rintro ⟨c, r⟩ ⟨-, -, hc1, hc2, hr1, hr2⟩
      have := tile_cover_unique plan.tileWidth c x _ hc1 hc2
      have := tile_cover_unique plan.tileHeight r y _ hr1 hr2
      simp_all
  · rintro ⟨⟨c, r⟩, ⟨-, -, hc1, hc2, hr1, hr2⟩, -⟩
    exact ⟨tile_cover_inside _ c x width hc1 hc2,
      tile_cover_inside _ r y height hr1 hr2⟩

/-- Witness for C10 at a concrete input. -/
theorem tile_partition_exact_witness :
    (0 < 7 ∧ 0 < 5) ↔
    ∃! cr : ℕ × ℕ,
      cr.1 < (planFor 7 5 (IMAGE_EXPORT_CONFIG .png) false).cols ∧
      cr.2 < (planFor 7 5 (IMAGE_EXPORT_CONFIG .png) false).rows ∧
      inTile 7 5 (planFor 7 5 (IMAGE_EXPORT_CONFIG .png) false) cr.1 cr.2 0 0 := by
  have h := tile_partition_exact 7 5 (IMAGE_EXPORT_CONFIG .png) false
    (by decide) (by decide) (by decide) (by decide) 0 0
  exact (iff_of_eq (by norm_num)).trans h

/-! ### Hash bucketing (hitomi.ts, `resolveHashNumber`)

Strings are modelled as `List Char`. -/

/-- JavaScript `\s` whitespace restricted to the ASCII whitespace characters
(space, tab, LF, CR, VT, FF); the Unicode whitespace code points cannot occur
in the payloads and hashes the claims quantify over. -/
def jsIsSpace (c : Char) : Bool :=
  decide (c.toNat = 32) || decide (c.toNat = 9) || decide (c.toNat = 10) ||
  decide (c.toNat = 13) || decide (c.toNat = 11) || decide (c.toNat = 12)

/-- The value of one hexadecimal digit (`0-9`, `a-f`, `A-F`), by code point. -/
def hexDigitVal (c : Char) : Option ℕ :=
  if 48 ≤ c.toNat ∧ c.toNat ≤ 57 then some (c.toNat - 48)
  else if 97 ≤ c.toNat ∧ c.toNat ≤ 102 then some (c.toNat - 87)
  else if 65 ≤ c.toNat ∧ c.toNat ≤ 70 then some (c.toNat - 55)
  else none

/-- Accumulate the maximal leading run of hex digits into a value. -/
def hexAccum : List Char → ℕ → ℕ
  | [], acc => acc
  | c :: rest, acc =>
    match hexDigitVal c with
    | some d => hexAccum rest (16 * acc + d)
    | none => acc

/-- `Number.parseInt(s, 16)`: skip leading whitespace and an optional
`0x`/`0X` prefix, then parse the maximal leading run of hex digits; `none`
when no digit is consumed (JS `NaN`, which `resolveHashNumber` maps to
`null` through its `Number.isFinite` check). A leading sign is not modelled
(JS would parse a negative number there); no sign can occur in the
three-character codes built from a hash, which is the only call site. -/
def parseHex16 (s : List Char) : Option ℕ :=
  let s1 := s.dropWhile jsIsSpace
  let s2 := match s1 with
    | c0 :: c1 :: rest =>
      if c0 = Char.ofNat 48 ∧ (c1 = Char.ofNat 120 ∨ c1 = Char.ofNat 88)
      then rest else s1
    | _ => s1
  match s2 with
  | c :: _ =>
    match hexDigitVal c with
    | some _ => some (hexAccum s2 0)
    | none => none
  | [] => none

/-- `resolveHashNumber` (hitomi.ts:145-150): for a hash of length at least 3,
parse `hash.slice(-1) + hash.slice(-3, -1)` as a base-16 integer. -/
def resolveHashNumber (hash : List Char) : Option ℕ :=
  if hash.length < 3 then none
  else parseHex16 (hash.drop (hash.length - 1) ++ (hash.drop (hash.length - 3)).take 2)

/-- A hex digit lies in one of the three ASCII digit/letter ranges. -/
lemma hexDigitVal_range (c : Char) (v : ℕ) (h : hexDigitVal c = some v) :
    (48 ≤ c.toNat ∧ c.toNat ≤ 57) ∨ (97 ≤ c.toNat ∧ c.toNat ≤ 102) ∨
    (65 ≤ c.toNat ∧ c.toNat ≤ 70) := by
  unfold hexDigitVal at h
  split at h
  · left; assumption
  · split at h
    · right; left; assumption
    · split at h
      · right; right; assumption
      · exact absurd h (by simp)

/-- A hex digit is not JavaScript whitespace. -/
lemma hexDigit_not_space (c : Char) (v : ℕ) (h : hexDigitVal c = some v) :
    jsIsSpace c = false := by
  have hr := hexDigitVal_range c v h
  simp only [jsIsSpace, Bool.or_eq_false_iff, decide_eq_false_iff_not]
  omega

/-- A hex digit is neither `x` nor `X`. -/
lemma hexDigit_not_x (c : Char) (v : ℕ) (h : hexDigitVal c = some v) :
    ¬ (c = Char.ofNat 120 ∨ c = Char.ofNat 88) := by
  have hr := hexDigitVal_range c v h
  rintro (he | he) <;> subst he
  · rw [show (Char.ofNat 120).toNat = 120 from by decide] at hr
    omega
  · rw [show (Char.ofNat 88).toNat = 88 from by decide] at hr
    omega

/-- C4. Bucket derivation: for every hash string whose last three characters
`a b c` (in order) are hex digits, `resolveHashNumber` returns exactly the
base-16 value of the reordered code `c ++ a ++ b` (last character first,
then the two preceding ones), i.e. `256 * val c + 16 * val a + val b`; in
particular the hash `"abc123"` yields the bucket `0x312 = 786`. -/
theorem bucket_derivation :
    (∀ (pre : List Char) (a b c : Char) (va vb vc : ℕ),
        hexDigitVal a = some va → hexDigitVal b = some vb → hexDigitVal c = some vc →
        resolveHashNumber (pre ++ [a, b, c]) = some (256 * vc + 16 * va + vb)) ∧
    resolveHashNumber (("abc123" ).data) = some 786 := by
  constructor
  · intro pre a b c va vb vc ha hb hc
    have hlen : (pre ++ [a, b, c]).length = pre.length + 3 := by simp
    rw [resolveHashNumber, hlen, if_neg (by omega)]
    have hdrop1 : (pre ++ [a, b, c]).drop (pre.length + 3 - 1) = [c] := by
      have h2 : pre.length + 3 - 1 = pre.length + 2 := by omega
      rw [h2, List.drop_append 2]
      rfl
    have hdrop3 : ((pre ++ [a, b, c]).drop (pre.length + 3 - 3)).take 2 = [a, b] := by
      have h0 : pre.length + 3 - 3 = pre.length + 0 := by omega
      rw [h0, List.drop_append 0]
      rfl
    rw [hdrop1, hdrop3]
    have hspace : jsIsSpace c = false := hexDigit_not_space c vc hc
    have hx : ¬ (a = Char.ofNat 120 ∨ a = Char.ofNat 88) := hexDigit_not_x a va ha
    show parseHex16 [c, a, b] = some (256 * vc + 16 * va + vb)
    simp only [parseHex16, List.dropWhile_cons, hspace]
    simp only [Bool.false_eq_true, if_false]
    rw [if_neg (fun h => hx h.2)]
    dsimp only
    rw [hc]
    simp only [hexAccum, ha, hb, hc]
    congr 1
    omega
  · decide

/-- Witness for C4 at a concrete input. -/
theorem bucket_derivation_witness :
    hexDigitVal '0' = some 0 ∧ hexDigitVal '1' = some 1 ∧ hexDigitVal '2' = some 2 ∧
      resolveHashNumber ([] ++ ['0', '1', '2']) = some (256 * 2 + 16 * 0 + 1) :=
  ⟨by decide, by decide, by decide,
    bucket_derivation.1 [] '0' '1' '2' 0 1 2 (by decide) (by decide) (by decide)⟩

/-! ### Server map parsing (hitomi.ts, `parseServerMap`)

The source scrapes the remote `gg.js` payload with four regular expressions.
Each regex is embedded as a deterministic scanner: all its character classes
are disjoint from the characters that follow them, so greedy matching never
backtracks. `matchAll` is embedded as a scan that tries to match at every
position from left to right, advancing one character at a time; this is
equivalent to advancing past each match because no match of either repeated
regex can start strictly inside another match (a `case` match only contains
the letters `c a s e o`, an `if` match only `i f g o`, so the anchors
`"case"`/`"if"` cannot reoccur inside a match after its start). -/

/-- ASCII decimal digit (`\d`). -/
def isDigitChar (c : Char) : Bool := decide (48 ≤ c.toNat) && decide (c.toNat ≤ 57)

/-- A single or double quote (the `["']` class). -/
def isQuote (c : Char) : Bool := decide (c.toNat = 34) || decide (c.toNat = 39)

/-- `Number("123")` on a captured digit run. -/
def digitsToNat (ds : List Char) : ℕ := ds.foldl (fun acc c => 10 * acc + (c.toNat - 48)) 0

/-- Consume an exact literal, returning the rest of the input. -/
def expectLit : List Char → List Char → Option (List Char)
  | [], s => some s
  | c :: cs, x :: rest => if x = c then expectLit cs rest else none
  | _ :: _, [] => none

/-- The shared regex tail `o\s*=\s*(\d+)` preceded by a run of characters
matching `p` (`\s*` for the case/default regexes, `[\s{]*` for the if
regex), returning the captured value. -/
def tryAssignWith (p : Char → Bool) (s : List Char) : Option ℕ :=
  match s.dropWhile p with
  | o :: s2 =>
    if o = 'o' then
      match s2.dropWhile jsIsSpace with
      | e :: s4 =>
        if e = '=' then
          let s5 := s4.dropWhile jsIsSpace
          match s5 with
          | d :: _ =>
            if isDigitChar d then some (digitsToNat (s5.takeWhile isDigitChar)) else none
          | [] => none
        else none
      | [] => none
    else none
  | [] => none

/-- `\s*o\s*=\s*(\d+)`. -/
def tryAssign : List Char → Option ℕ := tryAssignWith jsIsSpace

/-- One attempted match of `case\s+(\d+):(?:\s*o\s*=\s*(\d+))?` at the start
of `s` (hitomi.ts:69): the bucket together with the optional assigned
value. -/
def tryCase (s : List Char) : Option (ℕ × Option ℕ) :=
  match expectLit (("case" ).data) s with
  | none => none
  | some s1 =>
    match s1 with
    | c :: _ =>
      if jsIsSpace c then
        let s2 := s1.dropWhile jsIsSpace
        match s2 with
        | d :: _ =>
          if isDigitChar d then
            let key := digitsToNat (s2.takeWhile isDigitChar)
            match s2.dropWhile isDigitChar with
            | colon :: s4 =>
              if colon = ':' then
                match tryAssign s4 with
                | some v => some (key, some v)
                | none => some (key, none)
              else none
            | [] => none
          else none
        | [] => none
      else none
    | [] => none

/-- One attempted match of `if\s+\(g\s*===?\s*(\d+)\)[\s{]*o\s*=\s*(\d+)` at
the start of `s` (hitomi.ts:83). -/
def tryIf (s : List Char) : Option (ℕ × ℕ) :=
  match expectLit (("if" ).data) s with
  | none => none
  | some s1 =>
    match s1 with
    | c :: _ =>
      if jsIsSpace c then
        match s1.dropWhile jsIsSpace with
        | p :: s3 =>
          if p = '(' then
            match s3 with
            | g :: s4 =>
              if g = 'g' then
                match s4.dropWhile jsIsSpace with
                | e1 :: s6 =>
                  if e1 = '=' then
                    match s6 with
                    | e2 :: s7 =>
                      if e2 = '=' then
                        let s8 := match s7 with
                          | e3 :: s7a => if e3 = '=' then s7a else s7
                          | [] => s7
                        let s9 := s8.dropWhile jsIsSpace
                        match s9 with
                        | d :: _ =>
                          if isDigitChar d then
                            let key := digitsToNat (s9.takeWhile isDigitChar)
                            match s9.dropWhile isDigitChar with
                            | rp :: s11 =>
                              if rp = ')' then
                                match tryAssignWith
                                    (fun ch => jsIsSpace ch || decide (ch.toNat = 123)) s11 with
                                | some v => some (key, v)
                                | none => none
                              else none
                            | [] => none
                          else none
                        | [] => none
                      else none
                    | [] => none
                  else none
                | [] => none
              else none
            | [] => none
          else none
        | [] => none
      else none
    | [] => none

/-- One attempted match of `(?:var\s|default:)\s*o\s*=\s*(\d+)`
(hitomi.ts:92) at the start of `s`. -/
def tryDefaultAt (s : List Char) : Option ℕ :=
  let afterVar : Option (List Char) :=
    match expectLit (("var" ).data) s with
    | some s1 =>
      match s1 with
      | c :: s2 => if jsIsSpace c then some s2 else none
      | [] => none
    | none => none
  let tail : Option (List Char) :=
    match afterVar with
    | some t => some t
    | none => expectLit (("default:" ).data) s
  match tail with
  | some t => tryAssign t
  | none => none

/-- One attempted match of `b:\s*["']([^"']+)["']` (hitomi.ts:93) at the
start of `s`, returning the captured base-path text. -/
def tryBaseAt (s : List Char) : Option (List Char) :=
  match s with
  | b :: colon :: s2 =>
    if b = 'b' ∧ colon = ':' then
      let s3 := s2.dropWhile jsIsSpace
      match s3 with
      | q :: s4 =>
        if isQuote q then
          let content := s4.takeWhile (fun ch => ! isQuote ch)
          match s4.dropWhile (fun ch => ! isQuote ch) with
          | q2 :: _ =>
            if content.isEmpty then none
            else if isQuote q2 then some content else none
          | [] => none
        else none
      | [] => none
    else none
  | _ => none

/-- `payload.matchAll(caseRegex)` in order. -/
def scanCases : List Char → List (ℕ × Option ℕ)
  | [] => []
  | c :: rest =>
    match tryCase (c :: rest) with
    | some tok => tok :: scanCases rest
    | none => scanCases rest

/-- `payload.matchAll(ifRegex)` in order. -/
def scanIfs : List Char → List (ℕ × ℕ)
  | [] => []
  | c :: rest =>
    match tryIf (c :: rest) with
    | some tok => tok :: scanIfs rest
    | none => scanIfs rest

/-- First match of the default-server regex. -/
def findDefault : List Char → Option ℕ
  | [] => none
  | c :: rest =>
    match tryDefaultAt (c :: rest) with
    | some v => some v
    | none => findDefault rest

/-- First match of the base-path regex. -/
def findBase : List Char → Option (List Char)
  | [] => none
  | c :: rest =>
    match tryBaseAt (c :: rest) with
    | some v => some v
    | none => findBase rest

/-- `replace(/^\/+|\/+$/g, "")`: strip leading and trailing slashes. -/
def stripSlashes (s : List Char) : List Char :=
  ((s.dropWhile (fun c => decide (c.toNat = 47))).reverse.dropWhile
    (fun c => decide (c.toNat = 47))).reverse

/-- `HitomiServerMap` (hitomi.ts:28-32): the bucket map (a JS `Record`,
modelled as a lookup function), base path and default server. -/
structure HitomiServerMap where
  map : ℕ → Option ℕ
  basePath : List Char
  defaultServer : ℕ

/-- `for (const storedKey of keys) map[storedKey] = value` (hitomi.ts:76-78). -/
def writeAll (m : ℕ → Option ℕ) (keys : List ℕ) (v : ℕ) : ℕ → Option ℕ :=
  keys.foldl (fun acc k => fun x => if x = k then some v else acc x) m

/-- The fallthrough pass over the case matches (hitomi.ts:70-81): labels
without an assignment accumulate in `keys`; an assignment writes its value
to every pending label (and its own) and clears the buffer. -/
def applyCasesAux : List (ℕ × Option ℕ) → (ℕ → Option ℕ) → List ℕ → (ℕ → Option ℕ)
  | [], m, _ => m
  | (k, none) :: rest, m, keys => applyCasesAux rest m (keys ++ [k])
  | (k, some v) :: rest, m, keys => applyCasesAux rest (writeAll m (keys ++ [k]) v) []

/-- The whole fallthrough pass starting from the empty map and buffer. -/
def applyCases (toks : List (ℕ × Option ℕ)) : ℕ → Option ℕ :=
  applyCasesAux toks (fun _ => none) []

/-- The override pass over the if matches (hitomi.ts:84-90). -/
def applyIfs (m : ℕ → Option ℕ) (toks : List (ℕ × ℕ)) : ℕ → Option ℕ :=
  toks.foldl (fun acc kv x => if x = kv.1 then some kv.2 else acc x) m

/-- `parseServerMap` (hitomi.ts:66-103): case pass, then if overrides; fails
(returns `null`) exactly when no base path can be found; a missing default
yields 0. -/
def parseServerMap (payload : List Char) : Option HitomiServerMap :=
  match findBase payload with
  | none => none
  | some raw =>
    some { map := applyIfs (applyCases (scanCases payload)) (scanIfs payload)
           basePath := stripSlashes raw
           defaultServer := (findDefault payload).getD 0 }

/-! ### Image URL resolution (hitomi.ts, `resolveHitomiImageUrl`) -/

/-- `HitomiFile` (hitomi.ts:3-10): the per-image descriptor. The JS
`number | boolean` flags are modelled by their truthiness. -/
structure HitomiFile where
  name : Option (List Char)
  hash : Option (List Char)
  haswebp : Bool
  hasavif : Bool
  width : Option ℕ
  height : Option ℕ

/-- `String.prototype.toLowerCase` (ASCII). -/
def toLowerList (s : List Char) : List Char := s.map Char.toLower

/-- `resolveHitomiExtension` (hitomi.ts:122-128). -/
def resolveHitomiExtension (file : HitomiFile) : List Char :=
  if file.haswebp then ("webp" ).data
  else if file.hasavif then ("avif" ).data
  else
    let name := file.name.getD []
    let ext := (name.splitOn '.').getLastD []
    if ext.isEmpty then ("jpg" ).data else toLowerList ext

/-- The CDN image domain (hitomi.ts:37). -/
def HITOMI_IMAGE_DOMAIN : List Char := ("gold-usergeneratedcontent.net" ).data

/-- Decimal rendering of a number interpolated into the URL template. -/
def natToChars (n : ℕ) : List Char := (Nat.repr n).data

/-- `resolveHitomiImageUrl` (hitomi.ts:152-166). -/
def resolveHitomiImageUrl (file : HitomiFile) (serverMap : HitomiServerMap)
    (overrideExt : Option (List Char)) : Option (List Char) :=
  match file.hash with
  | none => none
  | some hash =>
    match resolveHashNumber hash with
    | none => none
    | some hashNumber =>
      let ext := toLowerList (overrideExt.getD (resolveHitomiExtension file))
      let serverValue := (serverMap.map hashNumber).getD serverMap.defaultServer
      let serverId := serverValue + 1
      let hostLetter := match ext with
        | [] => ("i" ).data
        | c :: _ => [c]
      some ((("https://" ).data) ++ hostLetter ++ natToChars serverId ++ (("." ).data) ++
        HITOMI_IMAGE_DOMAIN ++ (("/" ).data) ++ serverMap.basePath ++ (("/" ).data) ++
        natToChars hashNumber ++ (("/" ).data) ++ hash ++ (("." ).data) ++ ext)

/-- C6. URL resolution: for every file with a derivable hash (a stored hash
whose bucket resolves) and a nonempty target extension, `resolveHitomiImageUrl`
returns exactly
`https://{extLetter}{serverId}.{imageDomain}/{basePath}/{bucket}/{hash}.{ext}`,
where `extLetter` is the first character of the target extension and
`serverId` is `serverMap.map[bucket]` — falling back to
`serverMap.defaultServer` when the bucket is absent — offset by one. -/
theorem url_resolution_shape (file : HitomiFile) (sm : HitomiServerMap)
    (oe : Option (List Char)) (hash : List Char) (bucket : ℕ)
    (hh : file.hash = some hash) (hb : resolveHashNumber hash = some bucket)
    (hext : toLowerList (oe.getD (resolveHitomiExtension file)) ≠ []) :
    resolveHitomiImageUrl file sm oe =
      some ((("https://" ).data) ++
        [(toLowerList (oe.getD (resolveHitomiExtension file))).headD 'i'] ++
        natToChars ((sm.map bucket).getD sm.defaultServer + 1) ++ (("." ).data) ++
        HITOMI_IMAGE_DOMAIN ++ (("/" ).data) ++ sm.basePath ++ (("/" ).data) ++
        natToChars bucket ++ (("/" ).data) ++ hash ++ (("." ).data) ++
        toLowerList (oe.getD (resolveHitomiExtension file))) := by
  rw [resolveHitomiImageUrl, hh]
  dsimp only
  rw [hb]
  dsimp only
  rcases hE : toLowerList (oe.getD (resolveHitomiExtension file)) with _ | ⟨c, tail⟩
  · exact absurd hE hext
  · dsimp only
    simp only [List.headD_cons]

/-- Witness file for C6: webp flag set, hash `"abc123"`. -/
def exampleFile : HitomiFile :=
  { name := none, hash := some (("abc123" ).data), haswebp := true,
    hasavif := false, width := none, height := none }

/-- Witness server map for C6: empty bucket table, so the default server 7 is
used. -/
def exampleServerMap : HitomiServerMap :=
  { map := fun _ => none, basePath := ("b123" ).data, defaultServer := 7 }

/-- Witness for C6 at a concrete input: bucket `0x312 = 786` is absent from
the map, so the default server 7 is offset to 8, and the webp extension
selects the `w` host prefix. -/
theorem url_resolution_shape_witness :
    resolveHitomiImageUrl exampleFile exampleServerMap none =
      some (("https://w8.gold-usergeneratedcontent.net/b123/786/abc123.webp" ).data) := by
  have h := url_resolution_shape exampleFile exampleServerMap none
    (("abc123" ).data) 786 rfl (by decide) (by decide)
  exact h.trans (by decide)

/-! ### Fallthrough semantics of the case/if passes (claim C5) -/

lemma writeAll_notMem (keys : List ℕ) :
    ∀ (m : ℕ → Option ℕ) (v k : ℕ), k ∉ keys → writeAll m keys v k = m k := by
  induction keys with
  | nil => intro m v k _; rfl
  | cons k2 rest ih =>
    intro m v k hk
    rw [writeAll, List.foldl_cons]
    rw [show List.foldl (fun acc k => fun x => if x = k then some v else acc x)
      (fun x => if x = k2 then some v else m x) rest =
      writeAll (fun x => if x = k2 then some v else m x) rest v from rfl]
    rw [ih _ v k (by simp at hk; tauto)]
    show (if k = k2 then some v else m k) = m k
    rw [if_neg (by simp at hk; tauto)]

lemma writeAll_mem (keys : List ℕ) :
    ∀ (m : ℕ → Option ℕ) (v k : ℕ), k ∈ keys → writeAll m keys v k = some v := by
  induction keys with
  | nil => intro m v k hk; exact absurd hk (List.not_mem_nil k)
  | cons k2 rest ih =>
    intro m v k hk
    rw [writeAll, List.foldl_cons]
    rw [show List.foldl (fun acc k => fun x => if x = k then some v else acc x)
      (fun x => if x = k2 then some v else m x) rest =
      writeAll (fun x => if x = k2 then some v else m x) rest v from rfl]
    by_cases hr : k ∈ rest
    · exact ih _ v k hr
    · have hk2 : k = k2 := by simp at hk; tauto
      rw [writeAll_notMem rest _ v k hr]
      simp [hk2]

lemma applyCasesAux_skip (post : List (ℕ × Option ℕ)) :
    ∀ (m : ℕ → Option ℕ) (keys : List ℕ) (k : ℕ),
      (∀ t ∈ post, t.1 ≠ k) → k ∉ keys → applyCasesAux post m keys k = m k := by
  induction post with
  | nil => intro m keys k _ _; rfl
  | cons t rest ih =>
    rcases t with ⟨k2, v2⟩
    intro m keys k hpost hkeys
    have hk2 : k2 ≠ k := hpost (k2, v2) (List.mem_cons_self _ _)
    have hrest : ∀ t ∈ rest, t.1 ≠ k := fun t ht => hpost t (List.mem_cons_of_mem _ ht)
    rcases v2 with - | v2
    · rw [applyCasesAux]
      exact ih m (keys ++ [k2]) k hrest (by simp [hkeys]; omega)
    · rw [applyCasesAux]
      rw [ih _ [] k hrest (List.not_mem_nil k)]
      exact writeAll_notMem (keys ++ [k2]) m v2 k (by simp [hkeys]; omega)

lemma applyCasesAux_labels (labels : List ℕ) :
    ∀ (rest : List (ℕ × Option ℕ)) (m : ℕ → Option ℕ) (keys : List ℕ),
      applyCasesAux (labels.map (fun x => (x, none)) ++ rest) m keys =
        applyCasesAux rest m (keys ++ labels) := by
  induction labels with
  | nil => intro rest m keys; simp
  | cons l ls ih =>
    intro rest m keys
    rw [List.map_cons, List.cons_append, applyCasesAux, ih rest m (keys ++ [l])]
    simp

lemma applyCasesAux_run (k : ℕ) (pre : List (ℕ × Option ℕ)) :
    ∀ (labels : List ℕ) (b v : ℕ) (post : List (ℕ × Option ℕ))
      (m : ℕ → Option ℕ) (keys : List ℕ),
      (k ∈ labels ∨ k = b) → (∀ t ∈ post, t.1 ≠ k) →
      applyCasesAux (pre ++ labels.map (fun x => (x, none)) ++ [(b, some v)] ++ post)
        m keys k = some v := by
  induction pre with
  | nil =>
    intro labels b v post m keys hk hpost
    rw [List.nil_append, List.append_assoc, applyCasesAux_labels labels _ m keys]
    rw [List.singleton_append, applyCasesAux]
    rw [applyCasesAux_skip post _ [] k hpost (List.not_mem_nil k)]
    exact writeAll_mem _ m v k (by rcases hk with hk | hk <;> simp [hk])
  | cons t pre ih =>
    rcases t with ⟨k2, v2⟩
    intro labels b v post m keys hk hpost
    rcases v2 with - | v2
    · exact ih labels b v post m (keys ++ [k2]) hk hpost
    · exact ih labels b v post (writeAll m (keys ++ [k2]) v2) [] hk hpost

lemma applyIfs_skip (post : List (ℕ × ℕ)) :
    ∀ (m : ℕ → Option ℕ) (k : ℕ), (∀ t ∈ post, t.1 ≠ k) → applyIfs m post k = m k := by
  induction post with
  | nil => intro m k _; rfl
  | cons t rest ih =>
    rcases t with ⟨k2, v2⟩
    intro m k hpost
    have hk2 : k2 ≠ k := hpost (k2, v2) (List.mem_cons_self _ _)
    rw [applyIfs, List.foldl_cons]
    rw [show List.foldl (fun acc kv x => if x = kv.1 then some kv.2 else acc x)
      (fun x => if x = (k2, v2).1 then some (k2, v2).2 else m x) rest =
      applyIfs (fun x => if x = (k2, v2).1 then some (k2, v2).2 else m x) rest from rfl]
    rw [ih _ k (fun t ht => hpost t (List.mem_cons_of_mem _ ht))]
    simp only [if_neg (by omega : ¬ k = (k2, v2).1)]

/-- A descriptor holding only a hash, as used by the C5 test payloads. -/
def hashFile (h : List Char) : HitomiFile :=
  { name := none, hash := some h, haswebp := false, hasavif := false,
    width := none, height := none }

/-- The C5 routing payload with a three-label fallthrough run. -/
def fallthroughPayload : List Char :=
  ("case 1: case 2: case 3: o = 5; b: \"1759875000/\"" ).data

/-- The C5 routing payload with an additional per-bucket override. -/
def overridePayload : List Char :=
  ("case 1: case 2: case 3: o = 5; if (g === 2) o = 9; b: \"1759875000/\"" ).data

/-- C5. Fallthrough parsing with overrides: (1) in the case pass, a contiguous
run of labels without an intervening assignment all map to the next assignment
encountered (provided the label is not re-assigned later); (2) an if-style
override wins for its bucket (whatever the case map held, provided no later
override hits the same bucket); (3) concretely, parsing a payload containing
`case 1: case 2: case 3: o = 5` maps buckets 1, 2, 3 to server index 5, and
each resolves to server id 6 (`j6` host) in the final URL; adding
`if (g === 2) o = 9` makes bucket 2 resolve to 10 while 1 and 3 remain at 6. -/
theorem fallthrough_parsing_with_overrides :
    (∀ (pre : List (ℕ × Option ℕ)) (labels : List ℕ) (b v : ℕ)
        (post : List (ℕ × Option ℕ)) (k : ℕ),
        (k ∈ labels ∨ k = b) → (∀ t ∈ post, t.1 ≠ k) →
        applyCases (pre ++ labels.map (fun x => (x, none)) ++ [(b, some v)] ++ post) k =
          some v) ∧
    (∀ (m : ℕ → Option ℕ) (pre : List (ℕ × ℕ)) (k v : ℕ) (post : List (ℕ × ℕ)),
        (∀ t ∈ post, t.1 ≠ k) →
        applyIfs m (pre ++ [(k, v)] ++ post) k = some v) ∧
    ((parseServerMap fallthroughPayload).map (fun sm => (sm.map 1, sm.map 2, sm.map 3)) =
        some (some 5, some 5, some 5) ∧
      (parseServerMap fallthroughPayload).map
          (fun sm => resolveHitomiImageUrl (hashFile (("010" ).data)) sm none) =
        some (some (("https://j6.gold-usergeneratedcontent.net/1759875000/1/010.jpg" ).data)) ∧
      (parseServerMap fallthroughPayload).map
          (fun sm => resolveHitomiImageUrl (hashFile (("020" ).data)) sm none) =
        some (some (("https://j6.gold-usergeneratedcontent.net/1759875000/2/020.jpg" ).data)) ∧
      (parseServerMap fallthroughPayload).map
          (fun sm => resolveHitomiImageUrl (hashFile (("030" ).data)) sm none) =
        some (some (("https://j6.gold-usergeneratedcontent.net/1759875000/3/030.jpg" ).data))) ∧
    ((parseServerMap overridePayload).map (fun sm => (sm.map 1, sm.map 2, sm.map 3)) =
        some (some 5, some 9, some 5) ∧
      (parseServerMap overridePayload).map
          (fun sm => resolveHitomiImageUrl (hashFile (("020" ).data)) sm none) =
        some (some (("https://j10.gold-usergeneratedcontent.net/1759875000/2/020.jpg" ).data)) ∧
      (parseServerMap overridePayload).map
          (fun sm => resolveHitomiImageUrl (hashFile (("010" ).data)) sm none) =
        some (some (("https://j6.gold-usergeneratedcontent.net/1759875000/1/010.jpg" ).data)) ∧
      (parseServerMap overridePayload).map
          (fun sm => resolveHitomiImageUrl (hashFile (("030" ).data)) sm none) =
        some (some (("https://j6.gold-usergeneratedcontent.net/1759875000/3/030.jpg" ).data))) := by
  refine ⟨?_, ?_, by decide, by decide⟩
  · intro pre labels b v post k hk hpost
    exact applyCasesAux_run k pre labels b v post (fun _ => none) [] hk hpost
  · intro m pre k v post hpost
    rw [applyIfs, show pre ++ [(k, v)] ++ post = (pre ++ [(k, v)]) ++ post from by simp,
      List.foldl_append]
    rw [show List.foldl (fun acc kv x => if x = kv.1 then some kv.2 else acc x)
        (List.foldl (fun acc kv x => if x = kv.1 then some kv.2 else acc x) m (pre ++ [(k, v)]))
        post = applyIfs (List.foldl (fun acc kv x => if x = kv.1 then some kv.2 else acc x) m
        (pre ++ [(k, v)])) post from rfl]
    rw [applyIfs_skip post _ k hpost]
    rw [List.foldl_append, List.foldl_cons, List.foldl_nil]
    simp

/-- Witness for C5 at concrete inputs for the two general conjuncts. -/
theorem fallthrough_parsing_with_overrides_witness :
    applyCases ([] ++ [1, 2].map (fun x => (x, none)) ++ [(3, some 4)] ++ []) 2 = some 4 ∧
    applyIfs (fun _ => none) ([(7, 1)] ++ [(5, 6)] ++ [(8, 2)]) 5 = some 6 :=
  ⟨fallthrough_parsing_with_overrides.1 [] [1, 2] 3 4 [] 2 (by decide) (by decide),
    fallthrough_parsing_with_overrides.2.1 (fun _ => none) [(7, 1)] 5 6 [(8, 2)]
      (by decide)⟩

/-! ### Server map cache (hitomi.ts, `getHitomiServerMap`)

The module-level `serverMapPromise` is modelled as explicit state threaded
through one call: `cache` is the settled value of the stored promise
(`none` when no promise is stored), and `response` is the body text a fresh
network fetch would produce (`none` for a thrown fetch error; the source
maps a non-ok response to the empty text). The promise machinery is
synchronous in the model; "concurrent callers await the same pending
resolution" appears as the result of a cache hit being independent of the
fresh response. -/

/-- The fetch chain of hitomi.ts:109-112: non-ok or thrown → `null`, empty
payload → `null`, otherwise `parseServerMap`. -/
def resolveFetch (response : Option (List Char)) : Option HitomiServerMap :=
  match response with
  | none => none
  | some payload => if payload.isEmpty then none else parseServerMap payload

/-- One call to `getHitomiServerMap` (hitomi.ts:107-120): reuse the stored
promise or start a fresh fetch, then clear the stored promise when the
resolution failed. Returns the call's result and the cache afterwards. -/
def getHitomiServerMapModel (cache : Option (Option HitomiServerMap))
    (response : Option (List Char)) :
    Option HitomiServerMap × Option (Option HitomiServerMap) :=
  let promise := match cache with
    | some p => p
    | none => resolveFetch response
  let cacheAfter := if promise.isNone then none else some promise
  (promise, cacheAfter)

/-- C9. Server map cache invalidation: (1) a cached successful resolution is
returned to every later caller unchanged — independent of any fresh network
response, i.e. without refetching — and stays cached; (2) a failed resolution
(fetch error, non-ok/empty response, or unparseable payload) leaves the cache
cleared, (3) so the next caller performs a fresh resolution of its own
response; (4) a caller that finds any stored resolution awaits exactly that
resolution. -/
theorem server_map_cache_invalidation :
    (∀ (sm : HitomiServerMap) (response : Option (List Char)),
        getHitomiServerMapModel (some (some sm)) response = (some sm, some (some sm))) ∧
    (∀ response : Option (List Char), resolveFetch response = none →
        getHitomiServerMapModel none response = (none, none)) ∧
    (∀ response : Option (List Char),
        (getHitomiServerMapModel none response).1 = resolveFetch response) ∧
    (∀ (p : Option HitomiServerMap) (response : Option (List Char)),
        (getHitomiServerMapModel (some p) response).1 = p) := by
  refine ⟨fun sm response => rfl, ?_, fun response => rfl, fun p response => rfl⟩
  intro response h
  rw [getHitomiServerMapModel, h]
  rfl

/-- Witness for C9 at a concrete input: a thrown fetch resolves to `null` and
clears the cache. -/
theorem server_map_cache_invalidation_witness :
    resolveFetch none = none ∧ getHitomiServerMapModel none none = (none, none) :=
  ⟨rfl, server_map_cache_invalidation.2.1 none rfl⟩

/-! ### Download orchestration (hitomi-viewer.tsx, `handleDownloadImages`)

The non-combine branch of `handleDownloadImages` is modelled on the
per-image outcomes of `fetchImageBlob` + `loadImageSource`: entry `i` of
`fetches` is `some (width, height)` when image `i` was retrieved and decoded,
`none` when every candidate URL failed (the loop then `continue`s). Canvas
contexts and encodes are assumed to succeed (their failure skips single
tiles, which no claim exercises), so each image contributes exactly the tile
file names of its plan. `locked` is `downloadLockRef.current` at entry;
`crash` models an exception thrown inside the `try` block (the `catch` arm
shows the failure toast); the `finally` arm always clears the lock. -/

/-- One notification outcome of a download request. -/
inductive DownloadNote
  | successCount (n : ℕ)
  | noImages
  | failed
  | alreadyInProgress
deriving DecidableEq, Repr

/-- Outputs written by a request together with its final notification. -/
structure DownloadResult where
  outputs : List (List Char)
  note : DownloadNote
deriving DecidableEq, Repr

/-- `String(value).padStart(indexWidth, "0")` (hitomi-viewer.tsx:489-491). -/
def padIndex (indexWidth n : ℕ) : List Char :=
  let ds := natToChars n
  List.replicate (indexWidth - ds.length) '0' ++ ds

/-- The file names produced for one image by the tile loop
(hitomi-viewer.tsx:687-731), in row-major order: the `-part-{row}-{col}`
suffix only appears when the plan has more than one tile. -/
def tileFileNames (baseLabel : List Char) (cfg : ImageExportConfig)
    (indexWidth idx : ℕ) (plan : TilePlan) : List (List Char) :=
  (List.range plan.rows).foldr (fun row acc =>
    (List.range plan.cols).map (fun col =>
      baseLabel ++ ("-" ).data ++ padIndex indexWidth (idx + 1) ++
      (if 1 < plan.cols ∨ 1 < plan.rows then
        ("-part-" ).data ++ natToChars (row + 1) ++ ("-" ).data ++ natToChars (col + 1)
      else []) ++ ("." ).data ++ cfg.extension) ++ acc) []

/-- The `for (let index = 0; ...)` loop over the images
(hitomi-viewer.tsx:669-736): a failed fetch is skipped, a successful one
contributes its plan's tile file names. -/
def imagesLoop (baseLabel : List Char) (cfg : ImageExportConfig) (split : Bool)
    (indexWidth : ℕ) : ℕ → List (Option (ℕ × ℕ)) → List (List Char)
  | _, [] => []
  | idx, f :: rest =>
    (match f with
     | none => []
     | some (w, h) => tileFileNames baseLabel cfg indexWidth idx (planFor w h cfg split)) ++
    imagesLoop baseLabel cfg split indexWidth (idx + 1) rest

/-- The `try` block of the non-combine path: process every image, then emit
the success toast with `images.length` — the total requested count
(hitomi-viewer.tsx:741). -/
def downloadImagesBody (baseLabel : List Char) (cfg : ImageExportConfig)
    (split : Bool) (fetches : List (Option (ℕ × ℕ))) : DownloadResult :=
  let indexWidth := (natToChars fetches.length).length
  ⟨imagesLoop baseLabel cfg split indexWidth 0 fetches, .successCount fetches.length⟩

/-- `handleDownloadImages` (hitomi-viewer.tsx:464-752): empty gallery check,
non-reentrant lock check, then the guarded body with a `finally`-style lock
release; returns the lock state after the call and the call's result. -/
def handleDownloadImagesModel (locked crash : Bool) (baseLabel : List Char)
    (cfg : ImageExportConfig) (split : Bool) (fetches : List (Option (ℕ × ℕ))) :
    Bool × DownloadResult :=
  if fetches.isEmpty then (locked, ⟨[], .noImages⟩)
  else if locked then (locked, ⟨[], .alreadyInProgress⟩)
  else (false, if crash then ⟨[], .failed⟩
    else downloadImagesBody baseLabel cfg split fetches)

lemma foldr_append_length {α : Type} (g : ℕ → List α) (n : ℕ) (h : ∀ r, (g r).length = n) :
    ∀ rs : List ℕ, (rs.foldr (fun row acc => g row ++ acc) []).length = rs.length * n := by
  intro rs
  induction rs with
  | nil => simp
  | cons r rest ih =>
    rw [List.foldr_cons, List.length_append, ih, h r, List.length_cons]
    ring

lemma tileFileNames_length (baseLabel : List Char) (cfg : ImageExportConfig)
    (indexWidth idx : ℕ) (plan : TilePlan) :
    (tileFileNames baseLabel cfg indexWidth idx plan).length = plan.rows * plan.cols := by
  rw [tileFileNames,
    foldr_append_length _ plan.cols (fun r => by rw [List.length_map, List.length_range]),
    List.length_range]

/-- With split mode off every successfully fetched image contributes exactly
one output file and failed fetches contribute none. -/
lemma imagesLoop_length_nosplit (baseLabel : List Char) (cfg : ImageExportConfig)
    (indexWidth : ℕ) :
    ∀ (fetches : List (Option (ℕ × ℕ))) (idx : ℕ),
      (imagesLoop baseLabel cfg false indexWidth idx fetches).length =
        (fetches.filter Option.isSome).length := by
  intro fetches
  induction fetches with
  | nil => intro idx; rfl
  | cons f rest ih =>
    intro idx
    rw [imagesLoop.eq_def]
    dsimp only
    rw [List.length_append, ih (idx + 1)]
    rcases f with - | ⟨w, h⟩
    · simp [List.filter]
    · have hplan : planFor w h cfg false = ⟨1, 1, w, h⟩ := rfl
      dsimp only
      rw [hplan, tileFileNames_length]
      simp [List.filter]
      omega

/-- C7 as stated is false on the code: the success toast always reports
`images.length` — the total requested count — and an all-failed batch still
reports success, not a no-images error. Counterexample: a batch of 5 images
where image 3 fails produces 4 outputs but the notification counts 5, and a
batch of 5 failing images produces no outputs yet still notifies success 5. -/
theorem fetch_failure_isolation_counterexample :
    (handleDownloadImagesModel false false (("doc" ).data) (IMAGE_EXPORT_CONFIG .png) false
        [some (10, 10), some (10, 10), none, some (10, 10), some (10, 10)]).2.outputs.length
      = 4 ∧
    (handleDownloadImagesModel false false (("doc" ).data) (IMAGE_EXPORT_CONFIG .png) false
        [some (10, 10), some (10, 10), none, some (10, 10), some (10, 10)]).2.note =
      DownloadNote.successCount 5 ∧
    (handleDownloadImagesModel false false (("doc" ).data) (IMAGE_EXPORT_CONFIG .png) false
        [some (10, 10), some (10, 10), none, some (10, 10), some (10, 10)]).2.note ≠
      DownloadNote.successCount 4 ∧
    (handleDownloadImagesModel false false (("doc" ).data) (IMAGE_EXPORT_CONFIG .png) false
        [none, none, none, none, none]).2.outputs = [] ∧
    (handleDownloadImagesModel false false (("doc" ).data) (IMAGE_EXPORT_CONFIG .png) false
        [none, none, none, none, none]).2.note = DownloadNote.successCount 5 ∧
    (handleDownloadImagesModel false false (("doc" ).data) (IMAGE_EXPORT_CONFIG .png) false
        [none, none, none, none, none]).2.note ≠ DownloadNote.noImages := by
  refine ⟨?_, by decide, by decide, by decide, by decide, by decide⟩
  decide

/-- C7 amended: when some images of a nonempty batch fail retrieval, the
export skips exactly the failed images and continues the batch — with split
off, the outputs are one file per successfully fetched image — but the
success notification reports the total requested image count (5 for a batch
of 5 with one failure, not 4), including when every image failed (no
no-images error is emitted in that case; the empty-gallery error only guards
an empty image list). -/
theorem fetch_failure_isolation_amended (baseLabel : List Char)
    (cfg : ImageExportConfig) (fetches : List (Option (ℕ × ℕ)))
    (hne : fetches ≠ []) :
    (handleDownloadImagesModel false false baseLabel cfg false fetches).2.note =
      DownloadNote.successCount fetches.length ∧
    (handleDownloadImagesModel false false baseLabel cfg false fetches).2.outputs.length =
      (fetches.filter Option.isSome).length := by
  have hempty : fetches.isEmpty = false := by
    cases fetches
    · exact absurd rfl hne
    · rfl
  rw [handleDownloadImagesModel, hempty]
  exact ⟨rfl, imagesLoop_length_nosplit baseLabel cfg _ fetches 0⟩

/-- Witness for the amended C7 at a concrete input. -/
theorem fetch_failure_isolation_amended_witness :
    (handleDownloadImagesModel false false (("doc" ).data) (IMAGE_EXPORT_CONFIG .png) false
        [none, some (2, 3)]).2.note = DownloadNote.successCount 2 ∧
    (handleDownloadImagesModel false false (("doc" ).data) (IMAGE_EXPORT_CONFIG .png) false
        [none, some (2, 3)]).2.outputs.length =
      ([none, some (2, 3)].filter Option.isSome).length :=
  fetch_failure_isolation_amended (("doc" ).data) (IMAGE_EXPORT_CONFIG .png)
    [none, some (2, 3)] (by decide)

/-- C8. Single in-flight session: (1) while the lock is held, a second
request on a nonempty gallery is rejected immediately with the
"already in progress" notice, produces no outputs (hence no second archive),
and leaves the lock — and therefore the active session's state and eventual
notification — untouched; (2) a request that acquires the lock always leaves
it released afterwards, on success and on failure alike (the `finally`
release). -/
theorem single_inflight_session :
    (∀ (crash : Bool) (baseLabel : List Char) (cfg : ImageExportConfig) (split : Bool)
        (fetches : List (Option (ℕ × ℕ))), fetches ≠ [] →
        handleDownloadImagesModel true crash baseLabel cfg split fetches =
          (true, ⟨[], DownloadNote.alreadyInProgress⟩)) ∧
    (∀ (crash : Bool) (baseLabel : List Char) (cfg : ImageExportConfig) (split : Bool)
        (fetches : List (Option (ℕ × ℕ))),
        (handleDownloadImagesModel false crash baseLabel cfg split fetches).1 = false) := by
  constructor
  · intro crash baseLabel cfg split fetches hne
    have hempty : fetches.isEmpty = false := by
      cases fetches
      · exact absurd rfl hne
      · rfl
    rw [handleDownloadImagesModel, hempty]
    rfl
  · intro crash baseLabel cfg split fetches
    rw [handleDownloadImagesModel]
    split
    · rfl
    · rfl

/-- Witness for C8 at a concrete input. -/
theorem single_inflight_session_witness :
    handleDownloadImagesModel true false (("doc" ).data) (IMAGE_EXPORT_CONFIG .png) false
        [some (1, 1)] = (true, ⟨[], DownloadNote.alreadyInProgress⟩) :=
  single_inflight_session.1 false (("doc" ).data) (IMAGE_EXPORT_CONFIG .png) false
    [some (1, 1)] (by decide)

end EasyDocs
